import Mathlib

/-!
Verification of the mqtt-monitor server core (server implementation in
`src/unnamed/part_003`, with `src/database.js` as the configuration store).

The development shallowly embeds:

* `MQTTMonitor.topicMatches` (part_003 lines 294-311): the source builds a
  JavaScript regular expression from the pattern by the three global
  replacements `+` ↦ `[^/]+`, `#` ↦ `.*`, `$` ↦ `\$`, anchors it with
  `^...$`, and tests the topic against it.  We embed the pattern as the
  list of regex atoms this construction produces (`tokenize`) and give the
  atoms their JavaScript regex semantics (`rmatch`): a literal character,
  `.` (any character except a line terminator), `[^/]+` (one or more
  non-separator characters), and `.*` (any run of non-line-terminator
  characters).  A pattern character whose regex reading is not one of
  these four atoms (`* ? ( ) [ ] { } | \ ^` — quantifiers, groups,
  classes, alternation, escapes, anchors, some of which even make the
  constructed regex invalid) is outside the embedding: `tokenize` returns
  `none` and `topicMatches` is partial there.
* the monitor state (`mqttClients`, `wsClients`, the topic records of the
  configuration store) and its transitions: the MQTT client callbacks
  (`connect`, `close`, `message`) registered by `connectMQTT`,
  `disconnectMQTT`, `handleWebSocketDisconnect`, the heartbeat loop that
  `startHeartbeat` installs, the `POST /api/pause-monitoring` route, and
  `broadcast`.

JavaScript `Map`s are embedded as association lists mutated only through
`lookupKey` / `setKey` / `updateKey` / `eraseKey`, which reproduce the
`get` / `set` / `delete` semantics (a `Map` holds at most one entry per
key; where a proof needs that invariant about an arbitrary state it takes
a `keysNodup` hypothesis).
-/

namespace MqttMonitor

/-! ## Association-list embedding of JavaScript `Map` -/

/-- Embedding of `Map.get`: the value at the first (in a real `Map`: only) entry for `k`. -/
def lookupKey {α β : Type} [DecidableEq α] (k : α) : List (α × β) → Option β
  | [] => none
  | (k', v) :: rest => if k' = k then some v else lookupKey k rest

/-- Embedding of `Map.set`: replace the entry for `k`, or append one. -/
def setKey {α β : Type} [DecidableEq α] (k : α) (v : β) : List (α × β) → List (α × β)
  | [] => [(k, v)]
  | (k', v') :: rest => if k' = k then (k, v) :: rest else (k', v') :: setKey k v rest

/-- Mutation of the object stored at `k` (`map.get(k).field = ...`). -/
def updateKey {α β : Type} [DecidableEq α] (k : α) (f : β → β) : List (α × β) → List (α × β)
  | [] => []
  | (k', v) :: rest => if k' = k then (k', f v) :: rest else (k', v) :: updateKey k f rest

/-- Embedding of `Map.delete`: remove the entry for `k`. -/
def eraseKey {α β : Type} [DecidableEq α] (k : α) : List (α × β) → List (α × β)
  | [] => []
  | (k', v) :: rest => if k' = k then rest else (k', v) :: eraseKey k rest

/-- The key list of the embedded map. -/
def keys {α β : Type} (l : List (α × β)) : List α := l.map Prod.fst

/-- A real `Map` holds at most one entry per key. -/
def keysNodup {α β : Type} (l : List (α × β)) : Prop := (keys l).Nodup

instance {α β : Type} [DecidableEq α] (l : List (α × β)) : Decidable (keysNodup l) :=
  inferInstanceAs (Decidable (keys l).Nodup)

/-! ## Topic matcher (`MQTTMonitor.topicMatches`, part_003 lines 294-311)

The source converts the pattern to a regex by
`pattern.replace(/\+/g,'[^/]+').replace(/#/g,'.*').replace(/\$/g,'\\$')`,
wraps it in `^...$` anchors and tests the topic.  `tokenize` maps each
pattern character to the regex atom this produces; `rmatch` is the
anchored-match semantics of the resulting atom sequence under JavaScript
regex rules (`.` and `.*` do not cross line terminators, `[^/]+` may). -/

/-- Regex atoms occurring in the regex string the source constructs:
a literal character, `.` (from a literal dot in the pattern, left
unescaped by the source), `[^/]+` (from `+`) and `.*` (from `#`). -/
inductive RTok : Type
  | lit (c : Char)
  | anyChar
  | oneLevel
  | anyStar
deriving DecidableEq, Repr

/-- JavaScript line terminators, which `.` (and hence `.*`) never match. -/
def isLineTerm (c : Char) : Bool :=
  c = '\n' || c = '\r' || c.toNat = 0x2028 || c.toNat = 0x2029

/-- The regex atom produced for one pattern character.  `+`, `#` and `.`
become wildcard atoms; `$` is escaped by the source and is a literal; a
character whose unescaped regex reading is not a single self-matching
atom (quantifiers, groups, classes, alternation, escapes, anchors) is
outside the embedding. -/
def tokenOf (c : Char) : Option RTok :=
  if c = '+' then some RTok.oneLevel
  else if c = '#' then some RTok.anyStar
  else if c = '.' then some RTok.anyChar
  else if c = '*' ∨ c = '?' ∨ c = '(' ∨ c = ')' ∨ c = '[' ∨ c = ']' ∨
          c = '\x7b' ∨ c = '\x7d' ∨ c = '|' ∨ c = '\\' ∨ c = '^'
  then none
  else some (RTok.lit c)

/-- Atom sequence of the regex built from a pattern (defined when every
pattern character maps to a single atom). -/
def tokenize : List Char → Option (List RTok)
  | [] => some []
  | c :: cs =>
      match tokenOf c, tokenize cs with
      | some t, some ts => some (t :: ts)
      | _, _ => none

/-- Suffixes of `s` reachable by letting `.*` consume a (possibly empty)
run of non-line-terminator characters. -/
def starSplits : List Char → List (List Char)
  | [] => [[]]
  | d :: ds => (d :: ds) :: (if isLineTerm d then [] else starSplits ds)

/-- Suffixes of `s` reachable by letting `[^/]+` consume a nonempty run
of non-separator characters. -/
def plusSplits : List Char → List (List Char)
  | [] => []
  | d :: ds => if d = '/' then [] else ds :: plusSplits ds

/-- Anchored match of an atom sequence against the topic, existential
over consumption choices exactly as regex matching is. -/
def rmatch : List RTok → List Char → Bool
  | [], s => s.isEmpty
  | RTok.lit c :: ts, s =>
      match s with
      | [] => false
      | d :: ds => if c = d then rmatch ts ds else false
  | RTok.anyChar :: ts, s =>
      match s with
      | [] => false
      | d :: ds => if isLineTerm d then false else rmatch ts ds
  | RTok.oneLevel :: ts, s => (plusSplits s).any fun s' => rmatch ts s'
  | RTok.anyStar :: ts, s => (starSplits s).any fun s' => rmatch ts s'

/-- Embedding of `MQTTMonitor.topicMatches` (part_003 lines 294-311,
identical in part_002 lines 257-274): build the anchored regex from the
pattern and test the topic.  `none` when the pattern contains a
character whose regex reading the embedding excludes. -/
def topicMatches (topic pattern : String) : Option Bool :=
  (tokenize pattern.data).map fun ts => rmatch ts topic.data

/-! ## Monitor state (part_003)

The `MQTTMonitor` instance owns `this.mqttClients` (connection id ↦ MQTT
client object) and `this.wsClients` (websocket client id ↦ client info),
and reads topic records through `this.db` (`mqtt_topics` rows,
src/database.js lines 102-109).  `nextTransport` counts the transports
ever opened by `mqtt.connect`, and names them: a client object is
modelled by the identity of its transport plus the mutable fields the
embedded operations touch.  `disconnectCalls` records each invocation of
`disconnectMQTT`, the Manager-disconnect call of the spec. -/

/-- Values of a websocket's readyState (`opened` is `WebSocket.OPEN`). -/
inductive WsReadyState : Type
  | connecting
  | opened
  | closing
  | closed
deriving DecidableEq

/-- An entry of `this.mqttClients`: the MQTT client object for one
connection id (its transport identity, its `connected` flag and the
`_pauseMonitoring` flag the pause route stores on it). -/
structure MqttClient where
  transportId : Nat
  connected : Bool
  pauseMonitoring : Bool
deriving DecidableEq

/-- An entry of `this.wsClients` (part_003 lines 320-325): the channel
(readyState, and whether a send on it throws), the set of associated
MQTT connection ids, and the bookkeeping timestamps. -/
structure WsClientInfo where
  readyState : WsReadyState
  sendFails : Bool
  mqttConnections : List Nat
  connectedAt : Nat
  lastPong : Nat
deriving DecidableEq

/-- A row of the `mqtt_topics` table (src/database.js lines 50-58): the
subscription records of a connection. -/
structure TopicRec where
  id : Nat
  connection_id : Nat
  topic : String
  qos : Nat
  active : Bool
deriving DecidableEq

/-- A row of the `mqtt_connections` table (src/database.js lines
35-47): the endpoint descriptor `connectMQTT` receives. -/
structure ConnectionRec where
  id : Nat
  name : String
  host : String
  port : Nat
  username : Option String
  password : Option String
  client_id : Option String
  keepalive : Option Nat
  clean_session : Bool
deriving DecidableEq

/-- The mutable state of the `MQTTMonitor` instance. -/
structure MonitorState where
  mqttClients : List (Nat × MqttClient)
  wsClients : List (String × WsClientInfo)
  topics : List TopicRec
  nextTransport : Nat
  disconnectCalls : List Nat
deriving DecidableEq

/-- Status values of the `connectionStatus` events the server emits. -/
inductive ConnStatus : Type
  | connected
  | disconnected
  | error
deriving DecidableEq

/-- Payload `messageData` built by the message handler (part_003 lines
525-532, minus the wall-clock timestamp string). -/
structure MessageData where
  connection_id : Nat
  topic : String
  message : String
  qos : Nat
  retained : Bool
deriving DecidableEq

/-- Events handed to `broadcast` by the embedded callbacks. -/
inductive OutEvent : Type
  | connectionStatus (connectionId : Nat) (status : ConnStatus)
  | message (data : MessageData)
deriving DecidableEq

/-- An inbound MQTT publish as the `message` callback receives it. -/
structure InboundMsg where
  topic : String
  payload : String
  qos : Nat
  retain : Bool
deriving DecidableEq

/-- Responses of the pause route. -/
inductive ApiResponse : Type
  | ok (message : String)
  | notFound (message : String)
deriving DecidableEq

/-! ### Operations -/

/-- Broker URL chosen by `connectMQTT` (part_003 lines 400-430):
websocket URLs are used verbatim; otherwise port 8883 or 443 selects
`mqtts` and anything else `mqtt`. -/
def brokerUrl (c : ConnectionRec) : String :=
  if c.host.startsWith "wss://" || c.host.startsWith "ws://" then c.host
  else if c.port = 8883 ∨ c.port = 443 then "mqtts://" ++ c.host ++ ":" ++ toString c.port
  else "mqtt://" ++ c.host ++ ":" ++ toString c.port

/-- Embedding of the synchronous part of `connectMQTT` (part_003 lines
397-457): build the URL and options (pure data, no state effect) and
call `mqtt.connect`, which always opens a fresh transport — modelled by
the `nextTransport` counter — and registers the lifecycle callbacks on
it.  The session table is only touched later, from the new transport's
`connect` callback (`onMqttConnect`).  Returns the handle of the
transport just opened. -/
def connectMQTT (s : MonitorState) (_conn : ConnectionRec) (_wsClientId : Option String) :
    MonitorState × Nat :=
  ({ s with nextTransport := s.nextTransport + 1 }, s.nextTransport)

/-- Embedding of the `client.on('connect')` callback registered by
`connectMQTT` (part_003 lines 443-457): store the client under the
connection id (replacing any previous entry), associate the connection
id with the requesting websocket client if that client is still
registered, and emit a `connected` status event.  A fresh client's
`_pauseMonitoring` is unset, i.e. falsy. -/
def onMqttConnect (s : MonitorState) (connectionId : Nat) (transport : Nat)
    (wsClientId : Option String) : MonitorState × OutEvent :=
  let client : MqttClient :=
    { transportId := transport, connected := true, pauseMonitoring := false }
  let s1 := { s with mqttClients := setKey connectionId client s.mqttClients }
  let s2 :=
    match wsClientId with
    | some wid =>
        match lookupKey wid s1.wsClients with
        | some _ =>
            let addConn : WsClientInfo → WsClientInfo := fun i =>
              { i with mqttConnections :=
                  if connectionId ∈ i.mqttConnections then i.mqttConnections
                  else i.mqttConnections ++ [connectionId] }
            { s1 with wsClients := updateKey wid addConn s1.wsClients }
        | none => s1
    | none => s1
  (s2, OutEvent.connectionStatus connectionId ConnStatus.connected)

/-- Embedding of the `client.on('close')` callback (part_003 lines
481-494): delete the transport handle from the session table, remove
the connection id from every websocket client's association set, and
emit a `disconnected` status event.  The topic records of the store are
not touched. -/
def onMqttClose (s : MonitorState) (connectionId : Nat) : MonitorState × OutEvent :=
  ({ s with
      mqttClients := eraseKey connectionId s.mqttClients,
      wsClients := s.wsClients.map fun e =>
        (e.1, { e.2 with mqttConnections := e.2.mqttConnections.erase connectionId }) },
   OutEvent.connectionStatus connectionId ConnStatus.disconnected)

/-- Embedding of the `client.on('message')` callback (part_003 lines
496-549) for a message arriving on the client `c` of connection
`connectionId`: the handler builds the `messageData` payload and hands
it to `broadcast` unless the client's `_pauseMonitoring` flag is set
(the wildcard diagnostics in the handler only log).  The monitor state
is unchanged; the result is the broadcast payload, if any. -/
def mkMessageData (connectionId : Nat) (m : InboundMsg) : MessageData :=
  { connection_id := connectionId, topic := m.topic, message := m.payload,
    qos := m.qos, retained := m.retain }

/-- The guarded tail of the `message` callback (part_003 lines
536-545): forward the payload to `broadcast` unless paused. -/
def onMqttMessage (connectionId : Nat) (c : MqttClient) (m : InboundMsg) : Option OutEvent :=
  if c.pauseMonitoring then none
  else some (OutEvent.message (mkMessageData connectionId m))

/-- Embedding of `disconnectMQTT` (part_003 lines 592-598): look up the
client for the connection id; if present, end the transport and delete
the table entry; otherwise do nothing.  `disconnectCalls` records the
invocation either way. -/
def disconnectMQTT (s : MonitorState) (connectionId : Nat) : MonitorState :=
  let s' := { s with disconnectCalls := s.disconnectCalls ++ [connectionId] }
  match lookupKey connectionId s.mqttClients with
  | some _ => { s' with mqttClients := eraseKey connectionId s'.mqttClients }
  | none => s'

/-- Embedding of `handleWebSocketDisconnect` (part_003 lines 625-643):
if the websocket client is registered, call `disconnectMQTT` for every
MQTT connection id associated with it, then delete its registry entry;
otherwise do nothing. -/
def handleWebSocketDisconnect (s : MonitorState) (wsClientId : String) : MonitorState :=
  match lookupKey wsClientId s.wsClients with
  | none => s
  | some info =>
      let s1 := info.mqttConnections.foldl (fun acc c => disconnectMQTT acc c) s
      { s1 with wsClients := eraseKey wsClientId s1.wsClients }

/-- One entry step of the heartbeat iteration (part_003 lines 707-723):
an OPEN channel is sent a `ping` carrying the current time, except that
a throwing send triggers `handleWebSocketDisconnect`; a channel in any
other readyState triggers `handleWebSocketDisconnect` directly. -/
def heartbeatStep (now : Nat) (acc : MonitorState × List (String × Nat))
    (e : String × WsClientInfo) : MonitorState × List (String × Nat) :=
  if e.2.readyState = WsReadyState.opened then
    if e.2.sendFails then (handleWebSocketDisconnect acc.1 e.1, acc.2)
    else (acc.1, acc.2 ++ [(e.1, now)])
  else (handleWebSocketDisconnect acc.1 e.1, acc.2)

/-- One tick of the interval `startHeartbeat` installs (part_003 lines
704-725): visit every registered websocket client and apply
`heartbeatStep`.  The recorded `lastPong` is never read.  `Map.forEach`
visits the entries present when the tick starts and each step deletes
at most its own entry, so folding over the snapshot list is the same
iteration.  Returns the new state and the pings sent. -/
def heartbeatTick (now : Nat) (s : MonitorState) : MonitorState × List (String × Nat) :=
  s.wsClients.foldl (heartbeatStep now) (s, [])

/-- The survival condition the heartbeat actually tests: the websocket
is OPEN and the probe send does not throw. -/
def aliveInfo (i : WsClientInfo) : Prop :=
  i.readyState = WsReadyState.opened ∧ i.sendFails = false

/-- Embedding of the `POST /api/pause-monitoring` route (part_003 lines
115-130): look the connection up in the session table; if present store
the pause flag on it and answer success, otherwise answer a 404 error
and change nothing. -/
def pauseMonitoringRoute (s : MonitorState) (connectionId : Nat) (paused : Bool) :
    MonitorState × ApiResponse :=
  match lookupKey connectionId s.mqttClients with
  | some _ =>
      let setPause : MqttClient → MqttClient := fun c => { c with pauseMonitoring := paused }
      ({ s with mqttClients := updateKey connectionId setPause s.mqttClients },
       ApiResponse.ok
         (if paused then "Message monitoring paused" else "Message monitoring resumed"))
  | none => (s, ApiResponse.notFound "Connection not found")

/-- Delivery outcome of `broadcast` for one websocket client. -/
inductive SendOutcome : Type
  | delivered
  | failed
  | skipped
deriving DecidableEq

/-- An entry of `wss.clients` as `broadcast` sees it: the socket's
readyState and whether this particular send completes.  The `ws`
transport's `send` on an OPEN socket is non-blocking and reports
failure asynchronously on that socket only, so a failing send does not
raise inside the loop. -/
structure WssClient where
  id : Nat
  readyState : WsReadyState
  sendOk : Bool
deriving DecidableEq

/-- Embedding of `broadcast` (part_003 lines 600-606): iterate over all
websocket clients in order; send to exactly those whose readyState is
OPEN; a non-OPEN client is skipped.  Per-client outcomes are recorded
in iteration order. -/
def broadcast (clients : List WssClient) : List (Nat × SendOutcome) :=
  clients.map fun c =>
    (c.id,
      if c.readyState = WsReadyState.opened then
        if c.sendOk then SendOutcome.delivered else SendOutcome.failed
      else SendOutcome.skipped)

/-! ### Sample states used by counterexamples and witnesses -/

/-- A registered viewer with an open, healthy channel whose last pong is
arbitrarily stale (time 0). -/
def sampleInfo : WsClientInfo :=
  { readyState := WsReadyState.opened, sendFails := false,
    mqttConnections := [], connectedAt := 0, lastPong := 0 }

/-- A monitor with the single viewer `ws_a` and no broker sessions. -/
def sampleState1 : MonitorState :=
  { mqttClients := [], wsClients := [("ws_a", sampleInfo)],
    topics := [], nextTransport := 0, disconnectCalls := [] }

/-- A live broker session handle. -/
def sampleClient : MqttClient :=
  { transportId := 0, connected := true, pauseMonitoring := false }

/-- A monitor with one live broker session for connection id 1 and no
viewers. -/
def c2State : MonitorState :=
  { mqttClients := [(1, sampleClient)], wsClients := [],
    topics := [], nextTransport := 1, disconnectCalls := [] }

/-- A connection descriptor row for connection id 1. -/
def conn1 : ConnectionRec :=
  { id := 1, name := "local", host := "localhost", port := 1883,
    username := none, password := none, client_id := none,
    keepalive := none, clean_session := true }

/-- A healthy viewer bound to broker session 1. -/
def c3Info : WsClientInfo :=
  { readyState := WsReadyState.opened, sendFails := false,
    mqttConnections := [1], connectedAt := 0, lastPong := 0 }

/-- A monitor where viewers `ws_a` and `ws_b` are both bound to the one
live broker session 1. -/
def c3State : MonitorState :=
  { mqttClients := [(1, sampleClient)],
    wsClients := [("ws_a", c3Info), ("ws_b", c3Info)],
    topics := [], nextTransport := 1, disconnectCalls := [] }

/-- A live broker session whose pause flag is set. -/
def pausedClient : MqttClient :=
  { transportId := 0, connected := true, pauseMonitoring := true }

/-- A monitor with the single, paused broker session 1. -/
def c6State : MonitorState :=
  { mqttClients := [(1, pausedClient)], wsClients := [],
    topics := [{ id := 7, connection_id := 1, topic := "sensors/#", qos := 0, active := true }],
    nextTransport := 1, disconnectCalls := [] }

/-- An inbound publish on `sensors/room1/temp`. -/
def sampleMsg : InboundMsg :=
  { topic := "sensors/room1/temp", payload := "21.5", qos := 0, retain := false }

/-! ## Lemmas about the Map embedding -/

theorem lookupKey_setKey_self {α β : Type} [DecidableEq α] (k : α) (v : β) :
    ∀ l : List (α × β), lookupKey k (setKey k v l) = some v := by
  intro l
  induction l with
  | nil => simp [setKey, lookupKey]
  | cons e rest ih =>
      obtain ⟨k', v'⟩ := e
      by_cases h : k' = k
      · simp [setKey, h, lookupKey]
      · simp [setKey, h, lookupKey, ih]

theorem lookupKey_updateKey_self {α β : Type} [DecidableEq α] (k : α) (f : β → β) :
    ∀ l : List (α × β), lookupKey k (updateKey k f l) = (lookupKey k l).map f := by
  intro l
  induction l with
  | nil => simp [updateKey, lookupKey]
  | cons e rest ih =>
      obtain ⟨k', v'⟩ := e
      by_cases h : k' = k
      · simp [updateKey, h, lookupKey]
      · simp [updateKey, h, lookupKey, ih]

theorem lookupKey_eraseKey_ne {α β : Type} [DecidableEq α] (k k' : α) (hk : k ≠ k') :
    ∀ l : List (α × β), lookupKey k (eraseKey k' l) = lookupKey k l := by
  intro l
  induction l with
  | nil => simp [eraseKey]
  | cons e rest ih =>
      obtain ⟨k₀, v₀⟩ := e
      by_cases h : k₀ = k'
      · subst h
        have hne : ¬ (k₀ = k) := fun hh => hk (hh ▸ rfl)
        simp [eraseKey, lookupKey, hne]
      · by_cases h2 : k₀ = k
        · subst h2
          simp [eraseKey, h, lookupKey]
        · simp [eraseKey, h, lookupKey, h2, ih]

theorem lookupKey_eq_none_of_not_mem_keys {α β : Type} [DecidableEq α] (k : α) :
    ∀ l : List (α × β), k ∉ keys l → lookupKey k l = none := by
  intro l
  induction l with
  | nil => intro _; rfl
  | cons e rest ih =>
      obtain ⟨k₀, v₀⟩ := e
      intro hk
      have h1 : ¬ (k₀ = k) := by
        intro hh
        exact hk (by simp [keys, hh])
      have h2 : k ∉ keys rest := by
        intro hh
        exact hk (by simp [keys] at hh ⊢; exact Or.inr hh)
      simp [lookupKey, h1, ih h2]

theorem eraseKey_sublist {α β : Type} [DecidableEq α] (k : α) :
    ∀ l : List (α × β), (eraseKey k l).Sublist l := by
  intro l
  induction l with
  | nil => simp [eraseKey]
  | cons e rest ih =>
      obtain ⟨k₀, v₀⟩ := e
      by_cases h : k₀ = k
      · rw [eraseKey, if_pos h]
        exact List.sublist_cons_self _ _
      · rw [eraseKey, if_neg h]
        exact List.Sublist.cons₂ (k₀, v₀) ih

theorem lookupKey_eraseKey_self {α β : Type} [DecidableEq α] (k : α) :
    ∀ l : List (α × β), keysNodup l → lookupKey k (eraseKey k l) = none := by
  intro l
  induction l with
  | nil => intro _; rfl
  | cons e rest ih =>
      obtain ⟨k₀, v₀⟩ := e
      intro hnd
      have hnd' : (k₀ :: keys rest).Nodup := hnd
      have hparts := List.nodup_cons.mp hnd'
      by_cases h : k₀ = k
      · subst h
        simp only [eraseKey, if_pos rfl]
        exact lookupKey_eq_none_of_not_mem_keys k₀ rest hparts.1
      · simp [eraseKey, h, lookupKey, ih hparts.2]

theorem keysNodup_eraseKey {α β : Type} [DecidableEq α] (k : α)
    (l : List (α × β)) (h : keysNodup l) : keysNodup (eraseKey k l) :=
  List.Nodup.sublist (List.Sublist.map Prod.fst (eraseKey_sublist k l)) h

/-! ## Matcher theorems -/

example : topicMatches "a/b/c" "a/+/c" = some true := by decide
example : topicMatches "a/b/c" "a/+" = some false := by decide
example : topicMatches "a/b/c" "a/#" = some true := by decide
example : topicMatches "a/b/c" "a/b/c/d/#" = some false := by decide
example : topicMatches "sensors/room1/temp" "sensors/#" = some true := by decide
example : topicMatches "a/b/c" "a/b/c" = some true := by decide
example : topicMatches "ab" "a." = some true := by decide
example : topicMatches "a/x/b" "a/#/b" = some true := by decide
example : topicMatches "a" "a/#" = some false := by decide

/-! ### Matcher lemmas -/

theorem mem_starSplits_iff (s' : List Char) :
    ∀ s : List Char, s' ∈ starSplits s ↔
      ∃ pre, s = pre ++ s' ∧ ∀ c ∈ pre, isLineTerm c = false := by
  intro s
  induction s with
  | nil =>
      constructor
      · intro h
        simp [starSplits] at h
        exact ⟨[], by simp [h], by simp⟩
      · rintro ⟨pre, heq, -⟩
        have hpre : pre = [] := by
          cases pre with
          | nil => rfl
          | cons p ps => simp at heq
        subst hpre
        simp at heq
        simp [starSplits, heq]
  | cons d ds ih =>
      by_cases hd : isLineTerm d
      · constructor
        · intro h
          simp [starSplits, hd] at h
          exact ⟨[], by simp [h], by simp⟩
        · rintro ⟨pre, heq, hpre⟩
          cases pre with
          | nil =>
              simp at heq
              subst heq
              simp [starSplits]
          | cons p ps =>
              rw [List.cons_append] at heq
              injection heq with h1 h2
              have hlt := hpre p (List.mem_cons_self _ _)
              rw [← h1] at hlt
              simp [hlt] at hd
      · constructor
        · intro h
          simp [starSplits, hd] at h
          rcases h with h | h
          · exact ⟨[], by simp [h], by simp⟩
          · rcases ih.mp h with ⟨pre, heq, hpre⟩
            refine ⟨d :: pre, by simp [heq], ?_⟩
            intro c hc
            rcases List.mem_cons.mp hc with hc | hc
            · subst hc
              simpa using hd
            · exact hpre c hc
        · rintro ⟨pre, heq, hpre⟩
          cases pre with
          | nil =>
              simp at heq
              subst heq
              simp [starSplits]
          | cons p ps =>
              rw [List.cons_append] at heq
              injection heq with h1 h2
              have hmem : s' ∈ starSplits ds :=
                ih.mpr ⟨ps, h2, fun c hc => hpre c (List.mem_cons_of_mem _ hc)⟩
              simp [starSplits, hd, hmem]

theorem mem_plusSplits_iff (s' : List Char) :
    ∀ s : List Char, s' ∈ plusSplits s ↔
      ∃ pre, pre ≠ [] ∧ s = pre ++ s' ∧ ∀ c ∈ pre, c ≠ '/' := by
  intro s
  induction s with
  | nil =>
      simp only [plusSplits, List.not_mem_nil, false_iff]
      rintro ⟨pre, hne, heq, -⟩
      cases pre with
      | nil => exact hne rfl
      | cons p ps => simp at heq
  | cons d ds ih =>
      by_cases hd : d = '/'
      · constructor
        · intro h
          rw [show plusSplits (d :: ds) = [] from by simp [plusSplits, hd]] at h
          simp at h
        · rintro ⟨pre, hne, heq, hpre⟩
          cases pre with
          | nil => exact absurd rfl hne
          | cons p ps =>
              rw [List.cons_append] at heq
              injection heq with h1 h2
              exact absurd (h1.symm.trans hd) (hpre p (List.mem_cons_self _ _))
      · constructor
        · intro h
          simp [plusSplits, hd] at h
          rcases h with h | h
          · exact ⟨[d], by simp, by simp [h], by simpa using hd⟩
          · rcases ih.mp h with ⟨pre, hne, heq, hpre⟩
            refine ⟨d :: pre, by simp, by simp [heq], ?_⟩
            intro c hc
            rcases List.mem_cons.mp hc with hc | hc
            · subst hc; exact hd
            · exact hpre c hc
        · rintro ⟨pre, hne, heq, hpre⟩
          cases pre with
          | nil => exact absurd rfl hne
          | cons p ps =>
              rw [List.cons_append] at heq
              injection heq with h1 h2
              cases ps with
              | nil =>
                  simp at h2
                  subst h2
                  simp [plusSplits, hd]
              | cons q qs =>
                  have hmem : s' ∈ plusSplits ds :=
                    ih.mpr ⟨q :: qs, by simp, h2,
                      fun c hc => hpre c (List.mem_cons_of_mem _ hc)⟩
                  simp [plusSplits, hd, hmem]

theorem rmatch_append {ts1 ts2 : List RTok} :
    ∀ {s1 s2 : List Char}, rmatch ts1 s1 = true → rmatch ts2 s2 = true →
      rmatch (ts1 ++ ts2) (s1 ++ s2) = true := by
  induction ts1 with
  | nil =>
      intro s1 s2 h1 h2
      have hs1 : s1 = [] := by
        cases s1 with
        | nil => rfl
        | cons a as => simp [rmatch] at h1
      simpa [hs1] using h2
  | cons t ts ih =>
      intro s1 s2 h1 h2
      cases t with
      | lit c =>
          cases s1 with
          | nil => simp [rmatch] at h1
          | cons d ds =>
              simp only [rmatch] at h1
              by_cases hc : c = d
              · rw [if_pos hc] at h1
                simpa [rmatch, hc] using ih h1 h2
              · rw [if_neg hc] at h1
                exact absurd h1 (by simp)
      | anyChar =>
          cases s1 with
          | nil => simp [rmatch] at h1
          | cons d ds =>
              simp only [rmatch] at h1
              by_cases hc : isLineTerm d
              · rw [if_pos hc] at h1
                exact absurd h1 (by simp)
              · rw [if_neg hc] at h1
                simpa [rmatch, hc] using ih h1 h2
      | oneLevel =>
          simp only [rmatch, List.any_eq_true] at h1 ⊢
          rcases h1 with ⟨s', hmem, hm⟩
          rcases (mem_plusSplits_iff s' s1).mp hmem with ⟨pre, hne, heq, hpre⟩
          refine ⟨s' ++ s2, ?_, ih hm h2⟩
          exact (mem_plusSplits_iff (s' ++ s2) (s1 ++ s2)).mpr
            ⟨pre, hne, by simp [heq], hpre⟩
      | anyStar =>
          simp only [rmatch, List.any_eq_true] at h1 ⊢
          rcases h1 with ⟨s', hmem, hm⟩
          rcases (mem_starSplits_iff s' s1).mp hmem with ⟨pre, heq, hpre⟩
          refine ⟨s' ++ s2, ?_, ih hm h2⟩
          exact (mem_starSplits_iff (s' ++ s2) (s1 ++ s2)).mpr
            ⟨pre, by simp [heq], hpre⟩

theorem rmatch_anyStar_absorb {ts : List RTok} {mid s : List Char}
    (hm : ∀ c ∈ mid, isLineTerm c = false) (h : rmatch ts s = true) :
    rmatch (RTok.anyStar :: ts) (mid ++ s) = true := by
  simp only [rmatch, List.any_eq_true]
  exact ⟨s, (mem_starSplits_iff s (mid ++ s)).mpr ⟨mid, rfl, hm⟩, h⟩

theorem rmatch_append_split {ts1 ts2 : List RTok} :
    ∀ {s : List Char}, rmatch (ts1 ++ ts2) s = true →
      ∃ s1 s2, s = s1 ++ s2 ∧ rmatch ts1 s1 = true ∧ rmatch ts2 s2 = true := by
  induction ts1 with
  | nil =>
      intro s h
      exact ⟨[], s, rfl, rfl, by simpa using h⟩
  | cons t ts ih =>
      intro s h
      cases t with
      | lit c =>
          cases s with
          | nil => simp [rmatch] at h
          | cons d ds =>
              simp only [List.cons_append, rmatch] at h
              by_cases hc : c = d
              · rw [if_pos hc] at h
                rcases ih h with ⟨a, b, hab, hma, hmb⟩
                exact ⟨d :: a, b, by simp [hab], by simp [rmatch, hc, hma], hmb⟩
              · rw [if_neg hc] at h
                exact absurd h (by simp)
      | anyChar =>
          cases s with
          | nil => simp [rmatch] at h
          | cons d ds =>
              simp only [List.cons_append, rmatch] at h
              by_cases hc : isLineTerm d
              · rw [if_pos hc] at h
                exact absurd h (by simp)
              · rw [if_neg hc] at h
                rcases ih h with ⟨a, b, hab, hma, hmb⟩
                exact ⟨d :: a, b, by simp [hab], by simp [rmatch, hc, hma], hmb⟩
      | oneLevel =>
          simp only [List.cons_append, rmatch, List.any_eq_true] at h
          rcases h with ⟨s', hmem, hm⟩
          rcases (mem_plusSplits_iff s' s).mp hmem with ⟨pre, hne, heq, hpre⟩
          rcases ih hm with ⟨a, b, hab, hma, hmb⟩
          refine ⟨pre ++ a, b, by simp [heq, hab], ?_, hmb⟩
          simp only [rmatch, List.any_eq_true]
          exact ⟨a, (mem_plusSplits_iff a (pre ++ a)).mpr ⟨pre, hne, rfl, hpre⟩, hma⟩
      | anyStar =>
          simp only [List.cons_append, rmatch, List.any_eq_true] at h
          rcases h with ⟨s', hmem, hm⟩
          rcases (mem_starSplits_iff s' s).mp hmem with ⟨pre, heq, hpre⟩
          rcases ih hm with ⟨a, b, hab, hma, hmb⟩
          refine ⟨pre ++ a, b, by simp [heq, hab], ?_, hmb⟩
          simp only [rmatch, List.any_eq_true]
          exact ⟨a, (mem_starSplits_iff a (pre ++ a)).mpr ⟨pre, rfl, hpre⟩, hma⟩

theorem tokenize_append {l1 l2 : List Char} {t1 t2 : List RTok}
    (h1 : tokenize l1 = some t1) (h2 : tokenize l2 = some t2) :
    tokenize (l1 ++ l2) = some (t1 ++ t2) := by
  induction l1 generalizing t1 with
  | nil =>
      simp only [tokenize, Option.some.injEq] at h1
      subst h1
      simpa using h2
  | cons c cs ih =>
      rw [tokenize] at h1
      cases htc : tokenOf c with
      | none => rw [htc] at h1; simp at h1
      | some tok =>
          rw [htc] at h1
          cases hts : tokenize cs with
          | none => rw [hts] at h1; simp at h1
          | some ts' =>
              rw [hts] at h1
              simp only [Option.some.injEq] at h1
              subst h1
              rw [List.cons_append, tokenize, htc, ih hts, List.cons_append]

/-- C4: the spec claims `matches(T,P) == (T==P)` for every pattern `P`
without the wildcards `+` and `#`.  The source escapes only `$` when
building the regex, so a literal dot in a wildcard-free pattern still
acts as the regex any-character atom: topic `ab` matches pattern `a.`
although the strings differ.  This theorem evaluates the embedded
matcher at that failing input, refuting the claimed equivalence. -/
theorem c4_wildcard_free_pattern_is_not_string_equality :
    ('+' ∉ "a.".data ∧ '#' ∉ "a.".data) ∧
    topicMatches "ab" "a." = some true ∧ ("ab" : String) ≠ "a." := by
  refine ⟨⟨by decide, by decide⟩, by decide, by decide⟩

/-- C5 counterexample: the claim says a pattern with a `#` segment in a
non-final position matches no topic at all.  In the source every `#` is
replaced by `.*` wherever it occurs, so the pattern `a/#/b`, whose `#`
segment is non-final, does match the topic `a/x/b`. -/
theorem c5_counterexample_nonfinal_hash_can_match :
    topicMatches "a/x/b" "a/#/b" = some true := by decide

/-- C5 amended: a `#` in a non-final position is not treated as an
automatic mismatch (nor as a syntax error).  Every `#` is replaced by
the regex `.*`, so wherever the pattern splits as `pa ++ '#' ++ pb` it
matches exactly the topics of the shape `sa ++ mid ++ sb` in which
`sa` matches the atoms of `pa`, `sb` matches the atoms of `pb`, and the
span `mid` swallowed by the misplaced wildcard is an arbitrary run of
non-line-terminator characters (separators included). -/
theorem c5_amended_nonfinal_hash_matches_any_span
    (pa pb t : List Char) (ta tb : List RTok)
    (hta : tokenize pa = some ta) (htb : tokenize pb = some tb) :
    (topicMatches (String.mk t) (String.mk (pa ++ '#' :: pb)) = some true ↔
      ∃ sa mid sb, t = sa ++ mid ++ sb ∧ rmatch ta sa = true ∧
        (∀ c ∈ mid, isLineTerm c = false) ∧ rmatch tb sb = true) := by
  have hpb : tokenize ('#' :: pb) = some (RTok.anyStar :: tb) := by
    rw [tokenize, show tokenOf '#' = some RTok.anyStar from rfl, htb]
  have hpat : tokenize (pa ++ '#' :: pb) = some (ta ++ RTok.anyStar :: tb) :=
    tokenize_append hta hpb
  have heval : topicMatches (String.mk t) (String.mk (pa ++ '#' :: pb)) =
      some (rmatch (ta ++ RTok.anyStar :: tb) t) := by
    show (tokenize (pa ++ '#' :: pb)).map (fun ts => rmatch ts t) = _
    rw [hpat]
    rfl
  rw [heval, Option.some_inj]
  constructor
  · intro h
    rcases rmatch_append_split h with ⟨s1, s2, hsplit, hm1, hm2⟩
    rw [show rmatch (RTok.anyStar :: tb) s2 = (starSplits s2).any (fun s' => rmatch tb s')
      from rfl] at hm2
    rw [List.any_eq_true] at hm2
    rcases hm2 with ⟨s', hmem, hm'⟩
    rcases (mem_starSplits_iff s' s2).mp hmem with ⟨mid, hmid_eq, hmid⟩
    refine ⟨s1, mid, s', ?_, hm1, hmid, hm'⟩
    rw [hsplit, hmid_eq, List.append_assoc]
  · rintro ⟨sa, mid, sb, ht, hsa, hmid, hsb⟩
    rw [ht, List.append_assoc]
    exact rmatch_append hsa (rmatch_anyStar_absorb hmid hsb)

/-- Witness instantiating the amended C5 claim at pattern `a/#/b` and
topic `a/x/b`: the characterization holds, and its right-hand side is
realized by the split `a/`, `x`, `/b`. -/
theorem c5_amended_witness :
    (topicMatches (String.mk ['a', '/', 'x', '/', 'b'])
        (String.mk (['a', '/'] ++ '#' :: ['/', 'b'])) = some true ↔
      ∃ sa mid sb, ['a', '/', 'x', '/', 'b'] = sa ++ mid ++ sb ∧
        rmatch [RTok.lit 'a', RTok.lit '/'] sa = true ∧
        (∀ c ∈ mid, isLineTerm c = false) ∧
        rmatch [RTok.lit '/', RTok.lit 'b'] sb = true) :=
  c5_amended_nonfinal_hash_matches_any_span ['a', '/'] ['/', 'b'] ['a', '/', 'x', '/', 'b']
    [RTok.lit 'a', RTok.lit '/'] [RTok.lit '/', RTok.lit 'b'] (by decide) (by decide)

theorem lookupKey_mem {α β : Type} [DecidableEq α] {k : α} {v : β} :
    ∀ {l : List (α × β)}, lookupKey k l = some v → (k, v) ∈ l := by
  intro l
  induction l with
  | nil => intro h; simp [lookupKey] at h
  | cons e rest ih =>
      obtain ⟨k', v'⟩ := e
      intro h
      by_cases hk : k' = k
      · subst hk
        rw [lookupKey, if_pos rfl] at h
        injection h with h
        rw [← h]
        exact List.mem_cons_self _ _
      · rw [lookupKey, if_neg hk] at h
        exact List.mem_cons_of_mem _ (ih h)

theorem lookupKey_of_mem_nodup {α β : Type} [DecidableEq α] {k : α} {v : β} :
    ∀ {l : List (α × β)}, keysNodup l → (k, v) ∈ l → lookupKey k l = some v := by
  intro l
  induction l with
  | nil => intro _ hmem; simp at hmem
  | cons e rest ih =>
      obtain ⟨k', v'⟩ := e
      intro hnd hmem
      have hnd' : (k' :: keys rest).Nodup := hnd
      have hparts := List.nodup_cons.mp hnd'
      rcases List.mem_cons.mp hmem with hmem | hmem
      · injection hmem with h1 h2
        subst h1
        subst h2
        rw [lookupKey, if_pos rfl]
      · by_cases hk : k' = k
        · subst hk
          have : k' ∈ keys rest := List.mem_map.mpr ⟨(k', v), hmem, rfl⟩
          exact absurd this hparts.1
        · rw [lookupKey, if_neg hk]
          exact ih hparts.2 hmem

theorem disconnectMQTT_wsClients (s : MonitorState) (c : Nat) :
    (disconnectMQTT s c).wsClients = s.wsClients := by
  unfold disconnectMQTT
  cases lookupKey c s.mqttClients <;> rfl

theorem disconnectMQTT_disconnectCalls (s : MonitorState) (c : Nat) :
    (disconnectMQTT s c).disconnectCalls = s.disconnectCalls ++ [c] := by
  unfold disconnectMQTT
  cases lookupKey c s.mqttClients <;> rfl

theorem foldl_disconnectMQTT_wsClients (L : List Nat) :
    ∀ s : MonitorState,
      (L.foldl (fun acc c => disconnectMQTT acc c) s).wsClients = s.wsClients := by
  induction L with
  | nil => intro s; rfl
  | cons c L ih => intro s; rw [List.foldl_cons, ih, disconnectMQTT_wsClients]

theorem foldl_disconnectMQTT_disconnectCalls (L : List Nat) :
    ∀ s : MonitorState,
      (L.foldl (fun acc c => disconnectMQTT acc c) s).disconnectCalls =
        s.disconnectCalls ++ L := by
  induction L with
  | nil => intro s; simp
  | cons c L ih =>
      intro s
      rw [List.foldl_cons, ih, disconnectMQTT_disconnectCalls, List.append_assoc,
        List.singleton_append]

theorem handleWebSocketDisconnect_wsClients (s : MonitorState) (j : String) :
    (handleWebSocketDisconnect s j).wsClients =
      match lookupKey j s.wsClients with
      | none => s.wsClients
      | some _ => eraseKey j s.wsClients := by
  unfold handleWebSocketDisconnect
  cases lookupKey j s.wsClients with
  | none => rfl
  | some info =>
      dsimp only
      rw [foldl_disconnectMQTT_wsClients]

theorem lookupKey_hwd_ne (s : MonitorState) (i j : String) (hij : i ≠ j) :
    lookupKey i (handleWebSocketDisconnect s j).wsClients = lookupKey i s.wsClients := by
  rw [handleWebSocketDisconnect_wsClients]
  cases lookupKey j s.wsClients with
  | none => rfl
  | some info => exact lookupKey_eraseKey_ne i j hij s.wsClients

theorem lookupKey_hwd_self (s : MonitorState) (j : String) (hnd : keysNodup s.wsClients) :
    lookupKey j (handleWebSocketDisconnect s j).wsClients = none := by
  rw [handleWebSocketDisconnect_wsClients]
  cases h : lookupKey j s.wsClients with
  | none => exact h
  | some info => exact lookupKey_eraseKey_self j s.wsClients hnd

theorem keysNodup_hwd (s : MonitorState) (j : String) (hnd : keysNodup s.wsClients) :
    keysNodup (handleWebSocketDisconnect s j).wsClients := by
  rw [handleWebSocketDisconnect_wsClients]
  cases lookupKey j s.wsClients with
  | none => exact hnd
  | some info => exact keysNodup_eraseKey j s.wsClients hnd

theorem heartbeat_fold_lookup (now : Nat) :
    ∀ (entries : List (String × WsClientInfo)) (acc : MonitorState × List (String × Nat))
      (i : String), keysNodup acc.1.wsClients →
      (lookupKey i ((entries.foldl (heartbeatStep now) acc).1.wsClients) ≠ none ↔
        (lookupKey i acc.1.wsClients ≠ none ∧
          ∀ info, (i, info) ∈ entries → aliveInfo info)) := by
  intro entries
  induction entries with
  | nil =>
      intro acc i hnd
      simp
  | cons e rest ih =>
      intro acc i hnd
      obtain ⟨j, infoJ⟩ := e
      rw [List.foldl_cons]
      by_cases halive : aliveInfo infoJ
      · rw [show heartbeatStep now acc (j, infoJ) = (acc.1, acc.2 ++ [(j, now)]) from by
          simp [heartbeatStep, halive.1, halive.2]]
        rw [ih (acc.1, acc.2 ++ [(j, now)]) i hnd]
        constructor
        · rintro ⟨hl, hrest⟩
          refine ⟨hl, ?_⟩
          intro info hmem
          rcases List.mem_cons.mp hmem with hmem | hmem
          · injection hmem with h1 h2
            rw [h2]
            exact halive
          · exact hrest info hmem
        · rintro ⟨hl, hcons⟩
          exact ⟨hl, fun info hmem => hcons info (List.mem_cons_of_mem _ hmem)⟩
      · have hstep : heartbeatStep now acc (j, infoJ) =
            (handleWebSocketDisconnect acc.1 j, acc.2) := by
          unfold heartbeatStep
          by_cases h1 : infoJ.readyState = WsReadyState.opened
          · cases hsf : infoJ.sendFails with
            | false => exact absurd ⟨h1, hsf⟩ halive
            | true => simp [h1, hsf]
          · simp [h1]
        rw [hstep]
        have hnd' : keysNodup (handleWebSocketDisconnect acc.1 j).wsClients :=
          keysNodup_hwd _ _ hnd
        rw [ih (handleWebSocketDisconnect acc.1 j, acc.2) i hnd']
        by_cases hij : i = j
        · subst hij
          have hnone : lookupKey i (handleWebSocketDisconnect acc.1 i).wsClients = none :=
            lookupKey_hwd_self _ _ hnd
          constructor
          · rintro ⟨hl, -⟩
            exact absurd hnone hl
          · rintro ⟨-, hcons⟩
            exact absurd (hcons infoJ (List.mem_cons_self _ _)) halive
        · rw [show lookupKey i (handleWebSocketDisconnect acc.1 j).wsClients
              = lookupKey i acc.1.wsClients from lookupKey_hwd_ne acc.1 i j hij]
          constructor
          · rintro ⟨hl, hrest⟩
            refine ⟨hl, ?_⟩
            intro info hmem
            rcases List.mem_cons.mp hmem with hmem | hmem
            · injection hmem with h1 h2
              exact absurd h1 hij
            · exact hrest info hmem
          · rintro ⟨hl, hcons⟩
            exact ⟨hl, fun info hmem => hcons info (List.mem_cons_of_mem _ hmem)⟩

theorem onMqttConnect_mqttClients (s : MonitorState) (connectionId transport : Nat)
    (w : Option String) :
    (onMqttConnect s connectionId transport w).1.mqttClients =
      setKey connectionId
        { transportId := transport, connected := true, pauseMonitoring := false }
        s.mqttClients := by
  unfold onMqttConnect
  cases w with
  | none => rfl
  | some wid =>
      dsimp only
      cases lookupKey wid s.wsClients <;> rfl

/-! ### State claims -/

/-- C1 counterexample: the claim says a viewer whose last recorded pong
predates the previous tick (here: two full 30s intervals stale at tick
time 100000) is removed by the heartbeat.  The tick never reads
`lastPong`: the viewer `ws_a` has an OPEN, healthy socket and survives
unchanged. -/
theorem c1_counterexample_stale_pong_viewer_survives_tick :
    sampleInfo.lastPong + 2 * 30000 < 100000 ∧
    (heartbeatTick 100000 sampleState1).1.wsClients = sampleState1.wsClients := by
  exact ⟨by decide, by decide⟩

/-- C1 amended: on a heartbeat tick a registered viewer channel remains
registered exactly when its websocket readyState is OPEN and the probe
send does not throw; channels failing that test are removed with
cleanup cascaded.  The recorded pong time is not consulted. -/
theorem c1_amended_heartbeat_removes_exactly_dead_sockets (now : Nat) (s : MonitorState)
    (i : String) (info : WsClientInfo) (hnd : keysNodup s.wsClients)
    (hmem : lookupKey i s.wsClients = some info) :
    (lookupKey i (heartbeatTick now s).1.wsClients ≠ none ↔
      (info.readyState = WsReadyState.opened ∧ info.sendFails = false)) := by
  unfold heartbeatTick
  refine (heartbeat_fold_lookup now s.wsClients (s, []) i hnd).trans ?_
  constructor
  · rintro ⟨-, hall⟩
    exact hall info (lookupKey_mem hmem)
  · intro halive
    refine ⟨by simp [hmem], fun info' hmem' => ?_⟩
    have hli := lookupKey_of_mem_nodup hnd hmem'
    rw [hmem] at hli
    injection hli with h
    rw [← h]
    exact halive

/-- Witness instantiating the amended C1 claim at the one-viewer state:
the healthy, stale-pong viewer stays registered. -/
theorem c1_amended_witness :
    keysNodup sampleState1.wsClients ∧
    lookupKey "ws_a" sampleState1.wsClients = some sampleInfo ∧
    (lookupKey "ws_a" (heartbeatTick 100000 sampleState1).1.wsClients ≠ none ↔
      (sampleInfo.readyState = WsReadyState.opened ∧ sampleInfo.sendFails = false)) :=
  ⟨by decide, by decide,
    c1_amended_heartbeat_removes_exactly_dead_sockets 100000 sampleState1 "ws_a" sampleInfo
      (by decide) (by decide)⟩

/-- C2 counterexample: connection id 1 already has a live session (its
stored handle is transport 0), yet `connectMQTT` opens a fresh
transport — the opened-transport counter advances — and hands back the
new handle (1), not the stored session. -/
theorem c2_counterexample_connect_opens_second_transport :
    lookupKey 1 c2State.mqttClients = some sampleClient ∧
    (connectMQTT c2State conn1 none).1.nextTransport = c2State.nextTransport + 1 ∧
    (connectMQTT c2State conn1 none).2 ≠ sampleClient.transportId := by
  exact ⟨by decide, by decide, by decide⟩

/-- C2 amended: `connectMQTT` is not idempotent.  Every call opens a
fresh transport and leaves the session table untouched until the new
transport's `connect` event fires, at which point the new client
replaces whatever entry the connection id had. -/
theorem c2_amended_connect_always_opens_fresh_transport (s : MonitorState)
    (conn : ConnectionRec) (w : Option String) :
    (connectMQTT s conn w).1.nextTransport = s.nextTransport + 1 ∧
    (connectMQTT s conn w).1.mqttClients = s.mqttClients ∧
    lookupKey conn.id
      (onMqttConnect (connectMQTT s conn w).1 conn.id (connectMQTT s conn w).2 none).1.mqttClients
      = some { transportId := s.nextTransport, connected := true, pauseMonitoring := false } := by
  refine ⟨rfl, rfl, ?_⟩
  rw [onMqttConnect_mqttClients]
  exact lookupKey_setKey_self conn.id _ _

/-- C3 counterexample: viewers `ws_a` and `ws_b` are both bound to
broker session 1.  Closing `ws_a` must, per the claim, not call Manager
disconnect because `ws_b` is still bound — but the coordinator calls
`disconnectMQTT 1` anyway and the shared session is torn down while
`ws_b` remains registered and bound to it. -/
theorem c3_counterexample_shared_session_disconnected :
    lookupKey "ws_b" c3State.wsClients = some c3Info ∧
    (1 : Nat) ∈ c3Info.mqttConnections ∧
    (handleWebSocketDisconnect c3State "ws_a").disconnectCalls = [1] ∧
    lookupKey 1 (handleWebSocketDisconnect c3State "ws_a").mqttClients = none ∧
    lookupKey "ws_b" (handleWebSocketDisconnect c3State "ws_a").wsClients = some c3Info := by
  exact ⟨by decide, by decide, by decide, by decide, by decide⟩

/-- C3 amended: when a viewer session is closed, the coordinator calls
Manager disconnect exactly once for every broker session in the
viewer's association set, unconditionally — no remaining-binding count
is consulted, so sessions still bound to other viewers are disconnected
too. -/
theorem c3_amended_close_disconnects_all_bound_sessions (s : MonitorState)
    (wsClientId : String) (info : WsClientInfo)
    (h : lookupKey wsClientId s.wsClients = some info) :
    (handleWebSocketDisconnect s wsClientId).disconnectCalls =
      s.disconnectCalls ++ info.mqttConnections := by
  unfold handleWebSocketDisconnect
  rw [h]
  dsimp only
  rw [foldl_disconnectMQTT_disconnectCalls]

/-- Witness instantiating the amended C3 claim: closing `ws_a` issues
the disconnect call for its one bound session. -/
theorem c3_amended_witness :
    lookupKey "ws_a" c3State.wsClients = some c3Info ∧
    (handleWebSocketDisconnect c3State "ws_a").disconnectCalls =
      c3State.disconnectCalls ++ c3Info.mqttConnections :=
  ⟨by decide,
    c3_amended_close_disconnects_all_bound_sessions c3State "ws_a" c3Info (by decide)⟩

/-- C6: while a session's pause flag is set, the message callback
forwards nothing to `broadcast`; after the pause route clears the flag,
a subsequently received message is forwarded as the usual `message`
payload. -/
theorem c6_pause_gates_forwarding (s : MonitorState) (connectionId : Nat)
    (c : MqttClient) (m1 m2 : InboundMsg)
    (hc : lookupKey connectionId s.mqttClients = some c)
    (hp : c.pauseMonitoring = true) :
    onMqttMessage connectionId c m1 = none ∧
    lookupKey connectionId (pauseMonitoringRoute s connectionId false).1.mqttClients =
      some { c with pauseMonitoring := false } ∧
    onMqttMessage connectionId { c with pauseMonitoring := false } m2 =
      some (OutEvent.message (mkMessageData connectionId m2)) := by
  refine ⟨by simp [onMqttMessage, hp], ?_, by simp [onMqttMessage]⟩
  unfold pauseMonitoringRoute
  rw [hc]
  dsimp only
  rw [lookupKey_updateKey_self, hc]
  rfl

/-- Witness instantiating C6 at the paused session 1 of `c6State`. -/
theorem c6_witness :
    lookupKey 1 c6State.mqttClients = some pausedClient ∧
    pausedClient.pauseMonitoring = true ∧
    onMqttMessage 1 pausedClient sampleMsg = none ∧
    lookupKey 1 (pauseMonitoringRoute c6State 1 false).1.mqttClients =
      some { pausedClient with pauseMonitoring := false } ∧
    onMqttMessage 1 { pausedClient with pauseMonitoring := false } sampleMsg =
      some (OutEvent.message (mkMessageData 1 sampleMsg)) :=
  have h := c6_pause_gates_forwarding c6State 1 pausedClient sampleMsg sampleMsg
    (by decide) (by decide)
  ⟨by decide, by decide, h.1, h.2.1, h.2.2⟩

/-- C7: a send failure on one OPEN channel is isolated: every other
OPEN channel with a completing send — in particular every such channel
after the failing one in iteration order — still receives the message,
and the loop still visits every client (delivery is not aborted). -/
theorem c7_broadcast_isolates_send_failure (pre post : List WssClient) (bad c : WssClient)
    (_hbadOpen : bad.readyState = WsReadyState.opened) (_hbadFail : bad.sendOk = false)
    (hcOpen : c.readyState = WsReadyState.opened) (hcOk : c.sendOk = true)
    (hcMem : c ∈ post) :
    (c.id, SendOutcome.delivered) ∈ broadcast (pre ++ bad :: post) ∧
    (broadcast (pre ++ bad :: post)).length = pre.length + 1 + post.length := by
  constructor
  · refine List.mem_map.mpr ⟨c, ?_, ?_⟩
    · exact List.mem_append_right _ (List.mem_cons_of_mem _ hcMem)
    · simp [hcOpen, hcOk]
  · simp [broadcast]
    omega

/-- Witness instantiating C7: client 0 is open but its send fails;
client 1, later in iteration order, is still delivered to. -/
theorem c7_witness :
    ((1 : Nat), SendOutcome.delivered) ∈
      broadcast ([] ++ { id := 0, readyState := WsReadyState.opened, sendOk := false } ::
        [{ id := 1, readyState := WsReadyState.opened, sendOk := true }]) ∧
    (broadcast ([] ++ { id := 0, readyState := WsReadyState.opened, sendOk := false } ::
        [{ id := 1, readyState := WsReadyState.opened, sendOk := true }])).length
      = List.length ([] : List WssClient) + 1 + 1 :=
  c7_broadcast_isolates_send_failure []
    [{ id := 1, readyState := WsReadyState.opened, sendOk := true }]
    { id := 0, readyState := WsReadyState.opened, sendOk := false }
    { id := 1, readyState := WsReadyState.opened, sendOk := true }
    rfl rfl rfl rfl (List.mem_cons_self _ _)

/-- C8: the `close` callback of a broker session removes that session's
transport handle from the session table and emits a `disconnected`
status event, and the stored subscription records (the `mqtt_topics`
rows with their topic, qos and active flag) are left entirely
unchanged. -/
theorem c8_close_removes_handle_keeps_subscriptions (s : MonitorState)
    (connectionId : Nat) (hnd : keysNodup s.mqttClients) :
    lookupKey connectionId (onMqttClose s connectionId).1.mqttClients = none ∧
    (onMqttClose s connectionId).2 =
      OutEvent.connectionStatus connectionId ConnStatus.disconnected ∧
    (onMqttClose s connectionId).1.topics = s.topics := by
  exact ⟨lookupKey_eraseKey_self connectionId s.mqttClients hnd, rfl, rfl⟩

/-- Witness instantiating C8 at the paused-session state. -/
theorem c8_witness :
    keysNodup c6State.mqttClients ∧
    lookupKey 1 (onMqttClose c6State 1).1.mqttClients = none ∧
    (onMqttClose c6State 1).2 = OutEvent.connectionStatus 1 ConnStatus.disconnected ∧
    (onMqttClose c6State 1).1.topics = c6State.topics :=
  have h := c8_close_removes_handle_keeps_subscriptions c6State 1 (by decide)
  ⟨by decide, h.1, h.2.1, h.2.2⟩

/-- C10: asking the pause route to change the flag of a connection id
with no live session yields the synchronous 404 error response and
returns the state unchanged — in particular every existing session's
pause flag is untouched. -/
theorem c10_pause_unknown_connection_is_404_no_change (s : MonitorState)
    (connectionId : Nat) (paused : Bool)
    (h : lookupKey connectionId s.mqttClients = none) :
    pauseMonitoringRoute s connectionId paused =
      (s, ApiResponse.notFound "Connection not found") := by
  unfold pauseMonitoringRoute
  rw [h]

/-- Witness instantiating C10: connection 2 has no live session in
`c6State`; the request 404s and the state (and so session 1's pause
flag) is unchanged. -/
theorem c10_witness :
    lookupKey 2 c6State.mqttClients = none ∧
    pauseMonitoringRoute c6State 2 true =
      (c6State, ApiResponse.notFound "Connection not found") :=
  ⟨by decide, c10_pause_unknown_connection_is_404_no_change c6State 2 true (by decide)⟩

end MqttMonitor
